import Mathlib

/-!
Verification development for the rlm-analyzer engine.

Text is modelled as `List Char` (JavaScript strings are sequences of code
units; all inputs considered here stay within the basic plane, where one
`Char` corresponds to one code unit, and `List.length` agrees with the
JavaScript `length`).  Each definition below is a shallow embedding of the
correspondingly named function of the source: `RLMExecutor` (executor
listing), `RLMOrchestrator` (orchestrator module), `ContextManager`
(context-manager module), `AdaptiveCompressor`, `ContextRotDetector`
(advanced-features module).
-/

/-- JavaScript strings, modelled as lists of characters. -/
abbrev Str := List Char

/-- Convert a Lean string literal to the `Str` model. -/
def str (s : String) : Str := s.toList

/-- The apostrophe character (U+0027). -/
def apos : Char := Char.ofNat 39

/-- The backquote character (U+0060), used by template literals and fences. -/
def bq : Char := Char.ofNat 96

/-- ASCII whitespace, the fragment of the JavaScript `\s` class relevant to
the inputs considered here (space, tab, newline, carriage return, vertical
tab, form feed). -/
def jsSpace (c : Char) : Bool :=
  c = ' ' || c = '\t' || c = '\n' || c = '\x0d' || c = '\x0b' || c = '\x0c'

/-- JavaScript word characters, the `\w` class: ASCII letters, digits and
underscore.  Used for the `\b` word-boundary assertions of the deny-list. -/
def isWordChar (c : Char) : Bool :=
  ('a' ≤ c && c ≤ 'z') || ('A' ≤ c && c ≤ 'Z') || ('0' ≤ c && c ≤ '9') || c = '_'

/-- JavaScript `String.prototype.trim`: strip whitespace from both ends. -/
def trimStr (s : Str) : Str :=
  ((s.dropWhile jsSpace).reverse.dropWhile jsSpace).reverse

/-- JavaScript `String.prototype.toLowerCase` on ASCII text. -/
def lowerStr (s : Str) : Str := s.map Char.toLower

/-- Substring containment, JavaScript `String.prototype.includes`. -/
def containsStr (hay needle : Str) : Bool :=
  match hay with
  | [] => needle.isEmpty
  | _ :: t => needle.isPrefixOf hay || containsStr t needle

/-- JavaScript `split(String.fromCharCode 10)`: split a text into lines. -/
def splitLines (s : Str) : List Str := List.splitOn '\n' s

/-- Join a list of segments with newline separators (`Array.prototype.join`). -/
def joinNL (xs : List Str) : Str := List.intercalate [ '\n' ] xs

/-- Decimal rendering of a natural number, for template interpolation. -/
def natStr (n : Nat) : Str := (Nat.repr n).toList

theorem containsStr_iff_isInfix (hay needle : Str) :
    containsStr hay needle = true ↔ needle <:+: hay := by
  induction hay with
  | nil =>
    simp [containsStr, List.isEmpty_iff, List.infix_nil]
  | cons c t ih =>
    simp only [containsStr, Bool.or_eq_true, ih]
    constructor
    · rintro (h | h)
      · exact (List.isPrefixOf_iff_prefix.mp h).isInfix
      · exact h.trans (List.suffix_cons c t).isInfix
    · rintro ⟨pre, suf, h⟩
      cases pre with
      | nil =>
        exact Or.inl (List.isPrefixOf_iff_prefix.mpr ⟨suf, by simpa using h⟩)
      | cons p ps =>
        refine Or.inr ⟨ps, suf, ?_⟩
        have := congrArg List.tail h
        simpa using this

/-!
## Script sandbox (`RLMExecutor`, executor listing)

`DANGEROUS_PATTERNS` is the deny-list of the source.  Each JavaScript regex
there has the shape: a `\b` word boundary, a literal, and optionally `\s*`
followed by one required character (`(` or `.`).  `DPattern` records the
regex source text (used in error messages) together with that structure.
-/

/-- One deny-list regex: `\b`, then `lit`, then — when `term` is present —
`\s*` and the character `term`. -/
structure DPattern where
  source : Str
  lit : Str
  term : Option Char
deriving DecidableEq

/-- Does the pattern match at the head of `s` (the boundary has already been
checked by the caller)? -/
def litTermAt (p : DPattern) (s : Str) : Bool :=
  p.lit.isPrefixOf s &&
    (match p.term with
     | none => true
     | some t =>
       match (s.drop p.lit.length).dropWhile jsSpace with
       | [] => false
       | c :: _ => c = t)

/-- Scan for a match of the pattern anywhere in the text; `prevWord` tells
whether the previous character was a word character (`\b` assertion). -/
def dpatMatchAux (p : DPattern) : Bool → Str → Bool
  | _, [] => false
  | prevWord, c :: rest =>
    (!prevWord && litTermAt p (c :: rest)) || dpatMatchAux p (isWordChar c) rest

/-- JavaScript `pattern.test(code)` for a deny-list pattern. -/
def dpatMatches (p : DPattern) (s : Str) : Bool := dpatMatchAux p false s

/-- The deny-list of the executor, in source order. -/
def DANGEROUS_PATTERNS : List DPattern :=
  [ ⟨str "\\beval\\s*\\(", str "eval", some '('⟩,
    ⟨str "\\bFunction\\s*\\(", str "Function", some '('⟩,
    ⟨str "\\bexec\\s*\\(", str "exec", some '('⟩,
    ⟨str "\\bcompile\\s*\\(", str "compile", some '('⟩,
    ⟨str "\\b__import__\\s*\\(", str "__import__", some '('⟩,
    ⟨str "\\bprocess\\s*\\.", str "process", some '.'⟩,
    ⟨str "\\brequire\\s*\\(", str "require", some '('⟩,
    ⟨str "\\bimport\\s*\\(", str "import", some '('⟩,
    ⟨str "\\bfs\\s*\\.", str "fs", some '.'⟩,
    ⟨str "\\bchild_process", str "child_process", none⟩,
    ⟨str "\\bspawn\\s*\\(", str "spawn", some '('⟩,
    ⟨str "\\bexecSync\\s*\\(", str "execSync", some '('⟩,
    ⟨str "\\bwriteFile", str "writeFile", none⟩,
    ⟨str "\\bunlink\\s*\\(", str "unlink", some '('⟩,
    ⟨str "\\brmdir\\s*\\(", str "rmdir", some '('⟩,
    ⟨str "\\bfetch\\s*\\(", str "fetch", some '('⟩,
    ⟨str "\\bXMLHttpRequest", str "XMLHttpRequest", none⟩,
    ⟨str "\\bWebSocket", str "WebSocket", none⟩ ]

/-- `validateSecurity`: the first deny-list pattern matching the code, when
one exists (the source returns `safe:false` with that pattern's source). -/
def validateSecurity (code : Str) : Option DPattern :=
  DANGEROUS_PATTERNS.find? (fun p => dpatMatches p code)

/-- The error text produced on a deny-list hit. -/
def securityError (p : DPattern) : Str :=
  str "Security violation: Blocked pattern: " ++ p.source

/-- A markdown fence: three backquotes. -/
def fence : Str := [bq, bq, bq]

/-- The language tags of the fence regex, in the alternation order of the
source (`python|javascript|tool_code|js|ts`, then the empty alternative). -/
def fenceTags : List Str :=
  [str "python", str "javascript", str "tool_code", str "js", str "ts", []]

/-- Split a text at its first fence occurrence: the part before the fence and
the part after it (the lazy `[\s\S]*?` body stops at the first closing
fence). -/
def splitAtFence : Str → Option (Str × Str)
  | [] => none
  | c :: rest =>
    if fence.isPrefixOf (c :: rest) then some ([], (c :: rest).drop 3)
    else
      match splitAtFence rest with
      | some (pre, post) => some (c :: pre, post)
      | none => none

/-- After an opening fence, try the language tags in alternation order; a tag
succeeds when it is followed by a newline and a closing fence exists. -/
def tagBody (after : Str) : Option Str :=
  fenceTags.findSome? fun tag =>
    if (tag ++ [ '\n' ]).isPrefixOf after then
      match splitAtFence (after.drop (tag.length + 1)) with
      | some (body, _) => some body
      | none => none
    else none

/-- First match of the fence regex of `extractCode`
(three backquotes, optional tag, newline, lazy body, three backquotes),
scanning start positions left to right. -/
def extractFenced : Str → Option Str
  | [] => none
  | c :: rest =>
    (if fence.isPrefixOf (c :: rest) then tagBody ((c :: rest).drop 3)
     else none).orElse fun _ => extractFenced rest

/-- `RLMExecutor.extractCode`: the first fenced block, or the whole input
when no fenced block matches. -/
def extractCode (text : Str) : Str := (extractFenced text).getD text

/-- Remove one leading semicolon when present (the `;?` of the regex). -/
def stripSemi : Str → Str
  | c :: rest => if c = ';' then rest else c :: rest
  | [] => []

/-- Does a text match the anchored regex tail `\s*;?\s*$` ? -/
def tailSemiOk (r : Str) : Bool :=
  ((stripSemi (r.dropWhile jsSpace)).dropWhile jsSpace).isEmpty

/-- Does the text after `FINAL\s*\(` contain a closing parenthesis followed
only by `\s*;?\s*` up to the end?  (Checked from the right, mirroring the
backtracking of `[\s\S]*?\)\s*;?\s*$`.) -/
def closeParenOk (body : Str) : Bool :=
  match (stripSemi (body.reverse.dropWhile jsSpace)).dropWhile jsSpace with
  | c :: _ => c = ')'
  | [] => false

/-- The finalize-only test of `execute`:
`/^\s*FINAL\s*\([\s\S]*?\)\s*;?\s*$/.test(cleanCode.trim())`. -/
def isFinalOnly (code : Str) : Bool :=
  let t := trimStr code
  (str "FINAL").isPrefixOf t &&
    (match (t.drop 5).dropWhile jsSpace with
     | c :: body => c = '(' && closeParenOk body
     | [] => false)

/-- Result record of `RLMExecutor.execute` (`ExecutorResult` of the types
module). -/
structure ExecutorResult where
  success : Bool
  output : Str
  error : Option Str
deriving DecidableEq

/-- Mutable fields of `RLMExecutor`: the cumulative print buffer
(`this.output`), the delegated-call counter (`this.subCallCount`) and the
finalize slot (`this.finalAnswer`). -/
structure ExecState where
  output : List Str
  subCallCount : Nat
  finalAnswer : Option Str
deriving DecidableEq

/-- Characters allowed inside a "simple" string literal: no quote of any of
the three kinds, no backslash, no line terminator.  For such a literal the
Python-to-JavaScript rewriting chain of `executeInSandbox` leaves the
finalize call intact (the string-masking step masks the whole literal, and
no other rewrite applies to `FINAL(__MASKED_STR_0__)`). -/
def simpleLitChar (c : Char) : Bool :=
  !(c = '"' || c = apos || c = bq || c = '\\' || c = '\n' || c = '\x0d')

/-- Recognize a finalize-only script whose argument is a simple quoted
string literal: `FINAL` `\s*` `(` `\s*` quote, content, the same quote,
`\s*` `)` `\s*;?\s*`, and return the literal's content.  This is the shape
for which `executeInSandbox` provably reduces to one `_setFinal`
(respectively a direct sandbox `FINAL`) call. -/
def simpleFinalArg (code : Str) : Option Str :=
  if (str "FINAL").isPrefixOf (trimStr code) then
    match ((trimStr code).drop 5).dropWhile jsSpace with
    | c0 :: r1 =>
      if c0 = '(' then
        match r1.dropWhile jsSpace with
        | q :: r3 =>
          if q = '"' || q = apos then
            match r3.dropWhile simpleLitChar with
            | q2 :: r4 =>
              if q2 = q then
                match r4.dropWhile jsSpace with
                | c5 :: r6 =>
                  if c5 = ')' && tailSemiOk r6 then some (r3.takeWhile simpleLitChar)
                  else none
                | [] => none
              else none
            | [] => none
          else none
        | [] => none
      else none
    | [] => none
  else none

/-- `executeInSandbox`, as a state transformer.  A finalize-only script with
a simple string literal argument is rewritten by the transpilation chain to
a single `_setFinal(<literal>)` call (or runs the sandbox's own `FINAL`
function when the parenthesis is not adjacent): it stores the literal's
content in the finalize slot and produces an empty output buffer.  Every
other script is handed to the JavaScript engine, which is external to the
repository and is therefore a parameter `engine`; `engine` returns the
executor state as mutated by the run (prints appended, delegation counter
advanced, finalize slot possibly set) and either the local output buffer or
a thrown error message. -/
def sandboxRun (engine : ExecState → Str → ExecState × Except Str Str)
    (st : ExecState) (code : Str) : ExecState × Except Str Str :=
  match simpleFinalArg code with
  | some ans => ({ st with finalAnswer := some ans }, Except.ok [])
  | none => engine st code

/-- The `try`/`catch` envelope of `execute`: a normal return yields
`{success:true, output: <local buffer>}`; a thrown error yields
`{success:false, output: this.output.join(newline), error: <message>}`. -/
def finishRun : ExecState × Except Str Str → ExecState × ExecutorResult
  | (st, Except.ok out) => (st, ⟨true, out, none⟩)
  | (st, Except.error msg) => (st, ⟨false, joinNL st.output, some msg⟩)

/-- `RLMExecutor.execute`: extract the code, test for a finalize-only
script, otherwise run the deny-list check, and only then execute in the
sandbox. -/
def executeWith (engine : ExecState → Str → ExecState × Except Str Str)
    (st : ExecState) (input : Str) : ExecState × ExecutorResult :=
  let code := extractCode input
  if isFinalOnly code then finishRun (sandboxRun engine st code)
  else
    match validateSecurity code with
    | some p => (st, ⟨false, [], some (securityError p)⟩)
    | none => finishRun (sandboxRun engine st code)

/-- Dropping a predicate-satisfying prefix continues into the second list. -/
theorem dropWhile_append_all {α : Type} {p : α → Bool} {l₁ l₂ : List α}
    (h : ∀ x ∈ l₁, p x = true) :
    (l₁ ++ l₂).dropWhile p = l₂.dropWhile p := by
  induction l₁ with
  | nil => rfl
  | cons a t ih =>
    have ha : p a = true := h a (List.mem_cons_self a t)
    simp only [List.cons_append, List.dropWhile_cons, ha, if_true]
    exact ih fun x hx => h x (List.mem_cons_of_mem a hx)

/-- The head of a non-empty `dropWhile` result falsifies the predicate. -/
theorem dropWhile_head_false {α : Type} {p : α → Bool} {l : List α} {c : α}
    {rest : List α} (h : l.dropWhile p = c :: rest) : p c = false := by
  induction l with
  | nil => simp at h
  | cons a t ih =>
    rw [List.dropWhile_cons] at h
    by_cases hpa : p a = true
    · exact ih (by simpa [hpa] using h)
    · rw [if_neg hpa] at h
      injection h with h1 h2
      subst h1
      simpa using hpa

/-- When a tail matches `\s*;?\s*$`, any text ending in a closing parenthesis
followed by that tail passes `closeParenOk`. -/
theorem closeParenOk_append {r6 : Str} (h : tailSemiOk r6 = true) (ys : Str) :
    closeParenOk (ys ++ ')' :: r6) = true := by
  unfold tailSemiOk at h
  unfold closeParenOk
  have hrev : (ys ++ ')' :: r6).reverse = r6.reverse ++ ')' :: ys.reverse := by
    simp
  rw [hrev]
  rcases ha : r6.dropWhile jsSpace with - | ⟨c, rest⟩
  · -- the tail is pure whitespace
    have h6 : ∀ x ∈ r6.reverse, jsSpace x = true := by
      intro x hx
      exact List.dropWhile_eq_nil_iff.mp ha x (List.mem_reverse.mp hx)
    rw [dropWhile_append_all h6]
    simp [List.dropWhile_cons, jsSpace, stripSemi]
  · have hc : jsSpace c = false := dropWhile_head_false ha
    have hr6 : r6.takeWhile jsSpace ++ c :: rest = r6 := by
      rw [← ha]
      exact List.takeWhile_append_dropWhile jsSpace r6
    by_cases hsemi : c = ';'
    · -- optional semicolon present, then whitespace
      subst hsemi
      rw [ha] at h
      have hrest : ∀ x ∈ rest.reverse, jsSpace x = true := by
        intro x hx
        refine List.dropWhile_eq_nil_iff.mp ?_ x (List.mem_reverse.mp hx)
        simpa [stripSemi, List.isEmpty_iff] using h
      have hw4 : ∀ x ∈ (r6.takeWhile jsSpace).reverse, jsSpace x = true := by
        intro x hx
        exact List.mem_takeWhile_imp (List.mem_reverse.mp hx)
      have hsplit : r6.reverse = rest.reverse ++ ';' :: (r6.takeWhile jsSpace).reverse := by
        conv_lhs => rw [← hr6]
        simp
      rw [hsplit, List.append_assoc, List.cons_append, dropWhile_append_all hrest]
      rw [show List.dropWhile jsSpace (';' :: ((r6.takeWhile jsSpace).reverse ++
            ')' :: ys.reverse)) = ';' :: ((r6.takeWhile jsSpace).reverse ++
            ')' :: ys.reverse) by simp [List.dropWhile_cons, jsSpace]]
      rw [show stripSemi (';' :: ((r6.takeWhile jsSpace).reverse ++
            ')' :: ys.reverse)) = (r6.takeWhile jsSpace).reverse ++
            ')' :: ys.reverse from by simp [stripSemi]]
      rw [dropWhile_append_all hw4]
      simp [List.dropWhile_cons, jsSpace]
    · -- no semicolon: the tail must already be empty, contradiction
      exfalso
      rw [ha] at h
      have hss : (stripSemi (c :: rest)).dropWhile jsSpace = c :: rest := by
        simp [stripSemi, hsemi, List.dropWhile_cons, hc]
      rw [hss] at h
      simp [List.isEmpty_iff] at h

/-- A finalize-only script with a simple string literal passes the
finalize-only regex of `execute`. -/
theorem simpleFinalArg_isFinalOnly {code content : Str}
    (h : simpleFinalArg code = some content) : isFinalOnly code = true := by
  unfold simpleFinalArg at h
  by_cases hpre : (str "FINAL").isPrefixOf (trimStr code) = true
  swap
  · rw [if_neg hpre] at h; exact absurd h (by simp)
  rw [if_pos hpre] at h
  unfold isFinalOnly
  rw [Bool.and_eq_true]
  refine ⟨hpre, ?_⟩
  rcases hd : ((trimStr code).drop 5).dropWhile jsSpace with - | ⟨c0, r1⟩
  · rw [hd] at h; exact absurd h (by simp)
  rw [hd] at h
  dsimp only at h ⊢
  by_cases hc0 : c0 = '('
  swap
  · rw [if_neg hc0] at h; exact absurd h (by simp)
  rw [if_pos hc0] at h
  subst hc0
  rw [Bool.and_eq_true]
  refine ⟨by simp, ?_⟩
  rcases hq : r1.dropWhile jsSpace with - | ⟨q, r3⟩
  · rw [hq] at h; exact absurd h (by simp)
  rw [hq] at h
  dsimp only at h
  by_cases hquote : (q = '"' || q = apos) = true
  swap
  · rw [if_neg hquote] at h; exact absurd h (by simp)
  rw [if_pos hquote] at h
  rcases hq2 : r3.dropWhile simpleLitChar with - | ⟨q2, r4⟩
  · rw [hq2] at h; exact absurd h (by simp)
  rw [hq2] at h
  dsimp only at h
  by_cases hq2q : q2 = q
  swap
  · rw [if_neg hq2q] at h; exact absurd h (by simp)
  rw [if_pos hq2q] at h
  rcases hc5 : r4.dropWhile jsSpace with - | ⟨c5, r6⟩
  · rw [hc5] at h; exact absurd h (by simp)
  rw [hc5] at h
  dsimp only at h
  by_cases hcp : (c5 = ')' && tailSemiOk r6) = true
  swap
  · rw [if_neg hcp] at h; exact absurd h (by simp)
  rw [Bool.and_eq_true] at hcp
  obtain ⟨hc5p, htail⟩ := hcp
  rw [decide_eq_true_iff] at hc5p
  subst hc5p
  -- reassemble r1 as (prefix) ++ closing parenthesis ++ regex tail
  have e1 : r1 = r1.takeWhile jsSpace ++ q :: r3 := by
    conv_lhs => rw [← List.takeWhile_append_dropWhile jsSpace r1]
    rw [hq]
  have e3 : r3 = r3.takeWhile simpleLitChar ++ q2 :: r4 := by
    conv_lhs => rw [← List.takeWhile_append_dropWhile simpleLitChar r3]
    rw [hq2]
  have e4 : r4 = r4.takeWhile jsSpace ++ ')' :: r6 := by
    conv_lhs => rw [← List.takeWhile_append_dropWhile jsSpace r4]
    rw [hc5]
  have hbody : r1 = (r1.takeWhile jsSpace ++ q :: (r3.takeWhile simpleLitChar ++
      q2 :: r4.takeWhile jsSpace)) ++ ')' :: r6 := by
    conv_lhs => rw [e1, e3, e4]
    simp
  rw [hbody]
  exact closeParenOk_append htail _

/-- A JavaScript engine that does nothing, used to instantiate theorems whose
statement holds for every engine. -/
def noopEngine : ExecState → Str → ExecState × Except Str Str :=
  fun st _ => (st, Except.ok [])

/-- A fresh executor state (constructor state of `RLMExecutor`). -/
def stEmpty : ExecState := ⟨[], 0, none⟩

/-- The orchestrator's `result.error || <quote>Unknown error<quote>`:
JavaScript `||` replaces a missing or empty message. -/
def errorFallbackStr (e : Option Str) : Str :=
  match e with
  | some m => if m.isEmpty then str "Unknown error" else m
  | none => str "Unknown error"

/-- The message the orchestrator pushes into history after a script
execution (`processQuery`, result branch): the execution output on success,
the error text with a fix request on failure. -/
def feedbackText (r : ExecutorResult) : Str :=
  if r.success then
    str "Result:\n\x60\x60\x60\n" ++ r.output ++ str "\n\x60\x60\x60"
  else
    str "Error:\n\x60\x60\x60\n" ++ errorFallbackStr r.error ++
      str "\n\x60\x60\x60\n\nPlease fix the code and try again."

/-- C2: a non-finalize-only script matching a deny-list pattern always
yields `{success:false}` with a security-violation error naming the
pattern, and the script is never executed: the result holds for every
engine, and the executor state (output buffer, delegation counter, finalize
slot) is returned unchanged. -/
theorem execute_denylist_rejects
    (engine : ExecState → Str → ExecState × Except Str Str)
    (st : ExecState) (input : Str) (p : DPattern)
    (hfin : isFinalOnly (extractCode input) = false)
    (hsec : validateSecurity (extractCode input) = some p) :
    executeWith engine st input = (st, ⟨false, [], some (securityError p)⟩) := by
  simp [executeWith, hfin, hsec]

/-- Concrete input for the deny-list witness. -/
def c2Input : Str := str "data = eval(userInput)\nprint(data)"

/-- The deny-list entry for `eval`. -/
def c2Pat : DPattern := ⟨str "\\beval\\s*\\(", str "eval", some '('⟩

/-- Witness for C2: the script calling `eval` is rejected unexecuted. -/
theorem execute_denylist_rejects_witness :
    isFinalOnly (extractCode c2Input) = false ∧
    validateSecurity (extractCode c2Input) = some c2Pat ∧
    executeWith noopEngine stEmpty c2Input =
      (stEmpty, ⟨false, [], some (securityError c2Pat)⟩) :=
  ⟨by decide, by decide,
    execute_denylist_rejects noopEngine stEmpty c2Input c2Pat (by decide) (by decide)⟩

/-- C3: when the sandbox execution throws, `execute` catches the error and
returns `{success:false, output: this.output.join, error: message}` (for
every script that passed the dispatch and reached the sandbox), and the
orchestrator's next-turn message interpolates the caught message verbatim
between the error fences — it is not a placeholder (the `|| <quote>Unknown
error<quote>` fallback only fires on an absent or empty message, excluded
here by `hne`). -/
theorem execute_error_surfaced
    (engine : ExecState → Str → ExecState × Except Str Str)
    (st st2 : ExecState) (input msg : Str)
    (hsec : validateSecurity (extractCode input) = none)
    (hnf : simpleFinalArg (extractCode input) = none)
    (heng : engine st (extractCode input) = (st2, Except.error msg))
    (hne : msg ≠ []) :
    executeWith engine st input = (st2, ⟨false, joinNL st2.output, some msg⟩) ∧
    feedbackText (executeWith engine st input).2 =
      str "Error:\n\x60\x60\x60\n" ++ msg ++
        str "\n\x60\x60\x60\n\nPlease fix the code and try again." := by
  have hmain : executeWith engine st input =
      (st2, ⟨false, joinNL st2.output, some msg⟩) := by
    unfold executeWith
    by_cases hfo : isFinalOnly (extractCode input) = true
    · simp [hfo, sandboxRun, hnf, heng, finishRun]
    · simp [hfo, hsec, sandboxRun, hnf, heng, finishRun]
  refine ⟨hmain, ?_⟩
  rw [hmain]
  simp [feedbackText, errorFallbackStr, List.isEmpty_iff, hne]

/-- Concrete failing engine for the C3 witness: the script printed one line
and then threw a reference error. -/
def c3Engine : ExecState → Str → ExecState × Except Str Str :=
  fun st _ =>
    ({ st with output := st.output ++ [str "scanning files"] },
      Except.error (str "undefinedVar is not defined"))

/-- Executor state after the failing run of the C3 witness. -/
def c3St2 : ExecState := ⟨[str "scanning files"], 0, none⟩

/-- Witness for C3: a thrown reference error is surfaced with its literal
message and the partial output, and fed back verbatim. -/
theorem execute_error_surfaced_witness :
    executeWith c3Engine stEmpty (str "print(undefinedVar)") =
      (c3St2, ⟨false, joinNL c3St2.output, some (str "undefinedVar is not defined")⟩) ∧
    feedbackText (executeWith c3Engine stEmpty (str "print(undefinedVar)")).2 =
      str "Error:\n\x60\x60\x60\n" ++ str "undefinedVar is not defined" ++
        str "\n\x60\x60\x60\n\nPlease fix the code and try again." :=
  execute_error_surfaced c3Engine stEmpty c3St2 (str "print(undefinedVar)")
    (str "undefinedVar is not defined") (by decide) (by decide) (by rfl) (by decide)

/-- C4: a finalize-only script with a (simple) string literal argument
succeeds for every engine and every executor state: the deny-list is never
consulted, the finalize slot receives the literal's content, and the result
is `{success:true}` — even when the literal's text matches deny-list
patterns. -/
theorem execute_finalize_bypasses
    (engine : ExecState → Str → ExecState × Except Str Str)
    (st : ExecState) (input content : Str)
    (h : simpleFinalArg (extractCode input) = some content) :
    executeWith engine st input =
      ({ st with finalAnswer := some content }, ⟨true, [], none⟩) := by
  have hfo : isFinalOnly (extractCode input) = true := simpleFinalArg_isFinalOnly h
  simp [executeWith, hfo, sandboxRun, h, finishRun]

/-- Concrete finalize-only input whose literal mentions deny-listed
constructs (`process.`, `fetch(`). -/
def c4Input : Str := str "FINAL(\"The app reads process.env and calls fetch() directly\")"

/-- The literal content stored by the C4 witness. -/
def c4Answer : Str := str "The app reads process.env and calls fetch() directly"

/-- Witness for C4: the deny-list would match the script, yet execution
succeeds and sets the finalize slot. -/
theorem execute_finalize_bypasses_witness :
    (validateSecurity (extractCode c4Input)).isSome = true ∧
    executeWith noopEngine stEmpty c4Input =
      ({ stEmpty with finalAnswer := some c4Answer }, ⟨true, [], none⟩) :=
  ⟨by decide,
    execute_finalize_bypasses noopEngine stEmpty c4Input c4Answer (by decide)⟩

/-!
## Orchestrator (`RLMOrchestrator`, orchestrator module)

The turn loop is modelled as a recursion over a list of turn stimuli.  Each
stimulus carries the provider's response for that turn, the elapsed wall
clock at the loop head, and the effect of running the response's script.
Script effects can only advance the executor state the way the sandbox
primitives do: `_llmQuery`/`llm_query` increment the delegation counter,
`_print` appends to the output buffer, `_setFinal`/`FINAL` store a string
in the finalize slot.  Context-management messages (rot-detection memory
injections) and progress callbacks touch neither the executor state nor the
termination gate and are elided from the loop model.
-/

/-- `getMinSubLLMCalls`: the delegated-call minimum derived from the
`SUB_LLM_THRESHOLDS` file-count tiers (200 files → 5, 100 → 4, 50 → 3,
20 → 2, default 1). -/
def getMinSubLLMCalls (fileCount : Nat) : Nat :=
  if fileCount ≥ 200 then 5
  else if fileCount ≥ 100 then 4
  else if fileCount ≥ 50 then 3
  else if fileCount ≥ 20 then 2
  else 1

/-- The quote class `["'` followed by backquote `]` of the FINAL-in-text
regex. -/
def quoteChar (c : Char) : Bool := c = '"' || c = apos || c = bq

/-- Lazy capture of `([\s\S]*?)["'``]\s*\)`: the shortest prefix whose next
character is a quote followed by optional whitespace and a closing
parenthesis. -/
def finalCapAux : Str → Str → Option Str
  | _, [] => none
  | acc, c :: rest =>
    if quoteChar c then
      match rest.dropWhile jsSpace with
      | ')' :: _ => some acc.reverse
      | _ => finalCapAux (c :: acc) rest
    else finalCapAux (c :: acc) rest

/-- Match of `/FINAL\s*\(\s*["'``]([\s\S]*?)["'``]\s*\)/` anchored at the
start of `s`, returning the captured group. -/
def finalTextAt (s : Str) : Option Str :=
  if (str "FINAL").isPrefixOf s then
    match (s.drop 5).dropWhile jsSpace with
    | c :: r1 =>
      if c = '(' then
        match r1.dropWhile jsSpace with
        | q :: r2 => if quoteChar q then finalCapAux [] r2 else none
        | [] => none
      else none
    | [] => none
  else none

/-- First match of the FINAL-in-text regex, scanning start positions left
to right (orchestrator, `response.match`). -/
def finalTextMatch : Str → Option Str
  | [] => none
  | c :: rest => (finalTextAt (c :: rest)).orElse fun _ => finalTextMatch rest

/-- Session parameters relevant to the loop: the file count of the context,
`maxTurns` and `timeoutMs` of the configuration. -/
structure OrchConfig where
  fileCount : Nat
  maxTurns : Nat
  timeoutMs : Nat

/-- The state change a script run can make to the executor, per the sandbox
primitives: some number of new delegated calls, possibly a finalize value,
appended prints, and a normal or thrown outcome. -/
structure ScriptEffect where
  dSub : Nat
  setFinal : Option Str
  prints : List Str
  outcome : Except Str Str

/-- Stimulus of one loop iteration. -/
structure TurnInput where
  elapsed : Nat
  response : Str
  effect : ScriptEffect

/-- Apply a script effect to the executor state. -/
def applyEffect (e : ScriptEffect) (st : ExecState) : ExecState :=
  { output := st.output ++ e.prints,
    subCallCount := st.subCallCount + e.dSub,
    finalAnswer := match e.setFinal with | some s => some s | none => st.finalAnswer }

/-- The engine realizing a turn's script effect. -/
def effectEngine (e : ScriptEffect) : ExecState → Str → ExecState × Except Str Str :=
  fun st _ => (applyEffect e st, e.outcome)

/-- `response.includes(three backquotes)`: the orchestrator's test for a
code block. -/
def hasCodeB (response : Str) : Bool := containsStr response fence

/-- Execution phase of a turn: run the script through `execute` when the
response contains a code fence, otherwise do nothing. -/
def execPhase (st : ExecState) (inp : TurnInput) : ExecState × Option ExecutorResult :=
  if hasCodeB inp.response then
    let r := executeWith (effectEngine inp.effect) st inp.response
    (r.1, some r.2)
  else (st, none)

/-- Message roles of the conversation history. -/
inductive Role
  | user
  | model
deriving DecidableEq

/-- One history message. -/
structure Msg where
  role : Role
  text : Str
deriving DecidableEq

/-- The nudge pushed when the response has no code block. -/
def noCodeNudge : Str :=
  str "Please write Python code to analyze the codebase, or use FINAL(\"your answer\") if you have the answer."

/-- The two messages appended after the execution phase: the model's raw
response, then the execution feedback or the nudge. -/
def turnMessages (inp : TurnInput) (res : Option ExecutorResult) : List Msg :=
  match res with
  | some r => [⟨Role.model, inp.response⟩, ⟨Role.user, feedbackText r⟩]
  | none => [⟨Role.model, inp.response⟩, ⟨Role.user, noCodeNudge⟩]

/-- The corrective message pushed when a finalize value from the sandbox
slot is rejected (orchestrator, slot branch). -/
def rejectionSlotMsg (fileCount minSub cur : Nat) : Str :=
  str "⚠️ INSUFFICIENT ANALYSIS: You made only " ++ natStr cur ++
  str " sub-LLM calls, but this codebase (" ++ natStr fileCount ++
  str " files) requires at least " ++ natStr minSub ++
  str " llm_query() calls for quality analysis.\n\nYour FINAL() was rejected. You MUST use llm_query() to analyze more files before providing your final answer.\n\nSuggested files to analyze with llm_query():\n- Entry points (index.ts, main.ts, App.tsx)\n- Config files (package.json, tsconfig.json)\n- Core services or modules\n- Type definitions\n\nExample:\n\x60\x60\x60python\nanalysis = llm_query(f\"Analyze this file for architecture patterns:\\n\x7bfile_index[\x27src/index.ts\x27][:3000]\x7d\")\nprint(analysis)\n\x60\x60\x60\n\nMake " ++
  natStr (minSub - cur) ++
  str " more llm_query() calls, then call FINAL() with your comprehensive analysis."

/-- The corrective message pushed when a finalize value parsed from the
response text is rejected (orchestrator, text branch). -/
def rejectionTextMsg (fileCount minSub cur : Nat) : Str :=
  str "⚠️ INSUFFICIENT ANALYSIS: You made only " ++ natStr cur ++
  str " sub-LLM calls, but this codebase (" ++ natStr fileCount ++
  str " files) requires at least " ++ natStr minSub ++
  str " llm_query() calls.\n\nYour FINAL() was rejected. Use llm_query() to analyze " ++
  natStr (minSub - cur) ++ str " more key files, then provide your final answer."

/-- The result record of `processQuery` (turn list and timing elided). -/
structure RLMResultM where
  success : Bool
  answer : Option Str
  subCallCount : Nat
  error : Option Str
deriving DecidableEq

/-- The termination evaluation at the end of a turn (orchestrator, final
answer check): a set finalize slot is accepted only when the cumulative
delegated-call count reaches the minimum, otherwise the slot is cleared and
a corrective message is pushed; with an empty slot, a FINAL match in the
response text is gated the same way (without clearing anything). -/
def gateStep (cfg : OrchConfig) (st1 : ExecState) (hist1 : List Msg)
    (response : Str) : (ExecState × List Msg) ⊕ RLMResultM :=
  match st1.finalAnswer with
  | some a =>
    if st1.subCallCount < getMinSubLLMCalls cfg.fileCount then
      Sum.inl ({ st1 with finalAnswer := none },
        hist1 ++ [⟨Role.model, response⟩,
          ⟨Role.user, rejectionSlotMsg cfg.fileCount
            (getMinSubLLMCalls cfg.fileCount) st1.subCallCount⟩])
    else Sum.inr ⟨true, some a, st1.subCallCount, none⟩
  | none =>
    match finalTextMatch response with
    | some ans =>
      if st1.subCallCount < getMinSubLLMCalls cfg.fileCount then
        Sum.inl (st1,
          hist1 ++ [⟨Role.model, response⟩,
            ⟨Role.user, rejectionTextMsg cfg.fileCount
              (getMinSubLLMCalls cfg.fileCount) st1.subCallCount⟩])
      else Sum.inr ⟨true, some ans, st1.subCallCount, none⟩
    | none => Sum.inl (st1, hist1)

/-- One turn of the loop: timeout check, execution phase, history append,
termination evaluation. -/
def stepTurn (cfg : OrchConfig) (st : ExecState) (hist : List Msg)
    (inp : TurnInput) : (ExecState × List Msg) ⊕ RLMResultM :=
  if inp.elapsed > cfg.timeoutMs then
    Sum.inr ⟨false, none, st.subCallCount, some (str "Timeout exceeded")⟩
  else
    gateStep cfg (execPhase st inp).1
      (hist ++ turnMessages inp (execPhase st inp).2) inp.response

/-- The turn loop of `processQuery`: the stimulus list holds (at most)
`maxTurns` turns; its exhaustion is the max-turns failure of the source. -/
def runLoop (cfg : OrchConfig) : ExecState → List Msg → List TurnInput → RLMResultM
  | st, _, [] =>
    ⟨false, none, st.subCallCount,
      some (str "Max turns (" ++ natStr cfg.maxTurns ++
        str ") exceeded. Partial output:\n" ++ joinNL st.output)⟩
  | st, hist, inp :: rest =>
    match stepTurn cfg st hist inp with
    | Sum.inl (st2, hist2) => runLoop cfg st2 hist2 rest
    | Sum.inr r => r

theorem gateStep_success {cfg : OrchConfig} {st1 : ExecState} {hist1 : List Msg}
    {resp : Str} {r : RLMResultM}
    (h : gateStep cfg st1 hist1 resp = Sum.inr r) (hs : r.success = true) :
    getMinSubLLMCalls cfg.fileCount ≤ r.subCallCount ∧ r.answer.isSome = true := by
  unfold gateStep at h
  rcases hfa : st1.finalAnswer with - | a
  · rw [hfa] at h
    dsimp only at h
    rcases hft : finalTextMatch resp with - | ans
    · rw [hft] at h
      dsimp only at h
      simp at h
    · rw [hft] at h
      dsimp only at h
      by_cases hlt : st1.subCallCount < getMinSubLLMCalls cfg.fileCount
      · rw [if_pos hlt] at h
        simp at h
      · rw [if_neg hlt] at h
        cases h
        exact ⟨Nat.not_lt.mp hlt, rfl⟩
  · rw [hfa] at h
    dsimp only at h
    by_cases hlt : st1.subCallCount < getMinSubLLMCalls cfg.fileCount
    · rw [if_pos hlt] at h
      simp at h
    · rw [if_neg hlt] at h
      cases h
      exact ⟨Nat.not_lt.mp hlt, rfl⟩

theorem runLoop_success {cfg : OrchConfig} :
    ∀ (inputs : List TurnInput) (st : ExecState) (hist : List Msg) (r : RLMResultM),
      runLoop cfg st hist inputs = r → r.success = true →
      getMinSubLLMCalls cfg.fileCount ≤ r.subCallCount ∧ r.answer.isSome = true := by
  intro inputs
  induction inputs with
  | nil =>
    intro st hist r h hs
    rw [runLoop] at h
    subst h
    simp at hs
  | cons inp rest ih =>
    intro st hist r h hs
    rw [runLoop] at h
    cases hstep : stepTurn cfg st hist inp with
    | inl p =>
      obtain ⟨st2, hist2⟩ := p
      rw [hstep] at h
      dsimp only at h
      exact ih st2 hist2 r h hs
    | inr r2 =>
      rw [hstep] at h
      dsimp only at h
      subst h
      unfold stepTurn at hstep
      by_cases ht : inp.elapsed > cfg.timeoutMs
      · rw [if_pos ht] at hstep
        cases hstep
        simp at hs
      · rw [if_neg ht] at hstep
        exact gateStep_success hstep hs

theorem gateStep_rejects {cfg : OrchConfig} {st1 : ExecState} {hist1 : List Msg}
    {resp a : Str} (hfa : st1.finalAnswer = some a)
    (hlt : st1.subCallCount < getMinSubLLMCalls cfg.fileCount) :
    gateStep cfg st1 hist1 resp = Sum.inl ({ st1 with finalAnswer := none },
      hist1 ++ [⟨Role.model, resp⟩, ⟨Role.user, rejectionSlotMsg cfg.fileCount
        (getMinSubLLMCalls cfg.fileCount) st1.subCallCount⟩]) := by
  unfold gateStep
  rw [hfa]
  dsimp only
  rw [if_pos hlt]

/-- C1: the delegated-call gate of `processQuery`.  First conjunct: whenever
the turn loop returns `success:true`, the returned delegated-call count
meets the file-count minimum of `getMinSubLLMCalls` and an answer is
present — for every configuration, initial state and stimulus sequence, so
a finalize value produced below the minimum is never returned as the
session's answer and the loop otherwise continues or fails.  Second
conjunct: a set finalize slot below the minimum is rejected by the
termination evaluation — the slot is cleared and the corrective message is
pushed into history, and the loop continues. -/
theorem processQuery_finalize_gate :
    (∀ (cfg : OrchConfig) (st : ExecState) (hist : List Msg)
        (inputs : List TurnInput) (r : RLMResultM),
        runLoop cfg st hist inputs = r → r.success = true →
        getMinSubLLMCalls cfg.fileCount ≤ r.subCallCount ∧
          r.answer.isSome = true) ∧
    (∀ (cfg : OrchConfig) (st1 : ExecState) (hist1 : List Msg) (resp a : Str),
        st1.finalAnswer = some a →
        st1.subCallCount < getMinSubLLMCalls cfg.fileCount →
        gateStep cfg st1 hist1 resp = Sum.inl ({ st1 with finalAnswer := none },
          hist1 ++ [⟨Role.model, resp⟩, ⟨Role.user, rejectionSlotMsg cfg.fileCount
            (getMinSubLLMCalls cfg.fileCount) st1.subCallCount⟩])) :=
  ⟨fun _ st hist inputs r h hs => runLoop_success inputs st hist r h hs,
   fun _ _ _ _ _ hfa hlt => gateStep_rejects hfa hlt⟩

/-- Session of the witness scenario: 30 files (minimum 2 delegated calls). -/
def c1Config : OrchConfig := ⟨30, 10, 300000⟩

/-- A turn whose script is a bare finalize call. -/
def c1Final (ms : Nat) : TurnInput :=
  ⟨ms, str "\x60\x60\x60python\nFINAL(\"RLM analysis complete\")\n\x60\x60\x60",
    ⟨0, none, [], Except.ok []⟩⟩

/-- A turn whose script makes two delegated calls. -/
def c1Delegate : TurnInput :=
  ⟨1000, str "\x60\x60\x60python\nr = llm_query(q)\nprint(r)\n\x60\x60\x60",
    ⟨2, none, [str "two delegated analyses"], Except.ok (str "two delegated analyses")⟩⟩

/-- The witness stimulus sequence: premature finalize, two delegated calls,
finalize again. -/
def c1Inputs : List TurnInput := [c1Final 0, c1Delegate, c1Final 2000]

/-- An executor state whose finalize slot is set prematurely. -/
def c1SlotSt : ExecState := ⟨[], 0, some (str "premature")⟩

/-- Witness for C1: the 30-file scenario — the first finalize is rejected,
the identical finalize after two delegated calls succeeds, and the gate
theorem applies to both outcomes. -/
theorem processQuery_finalize_gate_witness :
    (runLoop c1Config stEmpty [] c1Inputs).success = true ∧
    getMinSubLLMCalls c1Config.fileCount ≤
      (runLoop c1Config stEmpty [] c1Inputs).subCallCount ∧
    (runLoop c1Config stEmpty [] c1Inputs).answer.isSome = true ∧
    gateStep c1Config c1SlotSt [] (str "FINAL(\"premature\")") =
      Sum.inl ({ c1SlotSt with finalAnswer := none },
        [⟨Role.model, str "FINAL(\"premature\")"⟩,
         ⟨Role.user, rejectionSlotMsg 30 (getMinSubLLMCalls 30) 0⟩]) :=
  ⟨by decide,
   (processQuery_finalize_gate.1 c1Config stEmpty [] c1Inputs _ rfl (by decide)).1,
   (processQuery_finalize_gate.1 c1Config stEmpty [] c1Inputs _ rfl (by decide)).2,
   processQuery_finalize_gate.2 c1Config c1SlotSt [] (str "FINAL(\"premature\")")
     (str "premature") rfl (by decide)⟩

/-!
## Provider calls with model-selection fallback
(`callConversation` / `callModel`, orchestrator module)

The provider (`ai.models.generateContent`) is external; it is modelled as a
function from the model identifier to either the response text or the
thrown error's message.  Besides the outcome, the loop model returns the
list of models actually called, in order.
-/

/-- The transient-error test of the source:
`message.includes(<quote>500<quote>) || message.includes(<quote>Internal<quote>)`. -/
def isTransientMsg (msg : Str) : Bool :=
  containsStr msg (str "500") || containsStr msg (str "Internal")

/-- The error wrapping of a non-transient provider failure. -/
def geminiApiError (model msg : Str) : Str :=
  str "Gemini API error (model: " ++ model ++ str "): " ++ msg

/-- The `lastError` recorded for a failed model. -/
def modelFailMsg (model msg : Str) : Str :=
  str "Model " ++ model ++ str ": " ++ msg

/-- Rendering of the possibly absent `lastError?.message`. -/
def lastErrStr : Option Str → Str
  | some m => m
  | none => str "undefined"

/-- `modelsToTry`: the primary model, then the fallback when it differs. -/
def modelsToTry (primary fallbackModel : Str) : List Str :=
  primary :: (if primary = fallbackModel then [] else [fallbackModel])

/-- The `for model of modelsToTry` loop of `callConversation`: return on
success, continue to the next model on a transient (`500`/`Internal`)
failure, throw immediately otherwise; throw `All models failed` after the
loop. -/
def callLoopConv (provider : Str → Except Str Str) :
    List Str → Option Str → List Str × Except Str Str
  | [], last =>
    ([], Except.error (str "All models failed. Last error: " ++ lastErrStr last))
  | m :: rest, _ =>
    match provider m with
    | Except.ok t => ([m], Except.ok t)
    | Except.error msg =>
      if isTransientMsg msg then
        let r := callLoopConv provider rest (some (modelFailMsg m msg))
        (m :: r.1, r.2)
      else ([m], Except.error (geminiApiError m msg))

/-- `RLMOrchestrator.callConversation` with its call trace. -/
def callConversation (provider : Str → Except Str Str) (root fb : Str) :
    List Str × Except Str Str :=
  callLoopConv provider (modelsToTry root fb) none

/-- The loop of `callModel` (same policy, different exhaustion message,
no `lastError` bookkeeping). -/
def callModelLoop (provider : Str → Except Str Str) :
    List Str → List Str × Except Str Str
  | [] => ([], Except.error (str "All models failed for sub-LLM call"))
  | m :: rest =>
    match provider m with
    | Except.ok t => ([m], Except.ok t)
    | Except.error msg =>
      if isTransientMsg msg then
        let r := callModelLoop provider rest
        (m :: r.1, r.2)
      else ([m], Except.error (geminiApiError m msg))

/-- `RLMOrchestrator.callModel` with its call trace. -/
def callModel (provider : Str → Except Str Str) (model fb : Str) :
    List Str × Except Str Str :=
  callModelLoop provider (modelsToTry model fb)

/-- C5: fallback policy of the provider calls, for a primary model distinct
from the configured fallback.  On a transient (`500`/`Internal`-class)
primary failure, exactly one retry against the fallback model is attempted
— the call trace is `[root, fallback]` — before any further error is
surfaced, the surfaced error being determined by the fallback's own
outcome.  On any other failure class the error is wrapped and surfaced
immediately and the fallback is never tried — the trace is `[root]`.  Both
`callConversation` and `callModel` obey the policy. -/
theorem provider_fallback_policy (provider : Str → Except Str Str)
    (root fb : Str) (hne : root ≠ fb) :
    (∀ m, provider root = Except.error m → isTransientMsg m = true →
      (callConversation provider root fb).1 = [root, fb] ∧
      (callModel provider root fb).1 = [root, fb] ∧
      (callConversation provider root fb).2 =
        (match provider fb with
         | Except.ok t => Except.ok t
         | Except.error m2 =>
           if isTransientMsg m2 then
             Except.error (str "All models failed. Last error: " ++ modelFailMsg fb m2)
           else Except.error (geminiApiError fb m2))) ∧
    (∀ m, provider root = Except.error m → isTransientMsg m = false →
      (callConversation provider root fb).1 = [root] ∧
      (callConversation provider root fb).2 = Except.error (geminiApiError root m) ∧
      (callModel provider root fb).1 = [root] ∧
      (callModel provider root fb).2 = Except.error (geminiApiError root m)) := by
  have hmodels : modelsToTry root fb = [root, fb] := by
    simp [modelsToTry, hne]
  constructor
  · intro m hm htr
    unfold callConversation callModel
    rw [hmodels]
    unfold callLoopConv callModelLoop
    rw [hm]
    dsimp only
    rw [htr]
    rw [if_pos rfl, if_pos rfl]
    refine ⟨?_, ?_, ?_⟩
    · cases hfb : provider fb with
      | ok t => simp [callLoopConv, hfb]
      | error m2 =>
        by_cases htr2 : isTransientMsg m2 = true
        · simp [callLoopConv, hfb, htr2]
        · simp [callLoopConv, hfb, htr2]
    · cases hfb : provider fb with
      | ok t => simp [callModelLoop, hfb]
      | error m2 =>
        by_cases htr2 : isTransientMsg m2 = true
        · simp [callModelLoop, hfb, htr2]
        · simp [callModelLoop, hfb, htr2]
    · cases hfb : provider fb with
      | ok t => simp [callLoopConv, hfb]
      | error m2 =>
        by_cases htr2 : isTransientMsg m2 = true
        · simp [callLoopConv, hfb, htr2, lastErrStr]
        · simp [callLoopConv, hfb, htr2]
  · intro m hm htr
    unfold callConversation callModel
    rw [hmodels]
    unfold callLoopConv callModelLoop
    rw [hm]
    dsimp only
    rw [htr]
    rw [if_neg (by simp), if_neg (by simp)]
    exact ⟨rfl, rfl, rfl, rfl⟩

/-- Primary model of the fallback witness. -/
def c5Root : Str := str "gemini-3-flash-preview"

/-- Fallback model of the fallback witness. -/
def c5Fb : Str := str "gemini-2.5-flash"

/-- A provider whose primary model throws `Internal 500` and whose fallback
answers. -/
def c5Provider : Str → Except Str Str :=
  fun m => if m = c5Root then Except.error (str "Internal 500")
           else Except.ok (str "fallback answer")

/-- Witness for C5: the `Internal 500` scenario — exactly one retry against
the fallback model, which answers. -/
theorem provider_fallback_policy_witness :
    (callConversation c5Provider c5Root c5Fb).1 = [c5Root, c5Fb] ∧
    (callModel c5Provider c5Root c5Fb).1 = [c5Root, c5Fb] ∧
    (callConversation c5Provider c5Root c5Fb).2 =
      (match c5Provider c5Fb with
       | Except.ok t => Except.ok t
       | Except.error m2 =>
         if isTransientMsg m2 then
           Except.error (str "All models failed. Last error: " ++ modelFailMsg c5Fb m2)
         else Except.error (geminiApiError c5Fb m2)) :=
  (provider_fallback_policy c5Provider c5Root c5Fb (by decide)).1
    (str "Internal 500") (by rfl) (by decide)

/-!
## Context manager (`ContextManager`, context-manager module)
-/

/-- Finding categories of `MemoryEntry.type`. -/
inductive MType
  | file_analysis
  | pattern
  | dependency
  | issue
  | summary
deriving DecidableEq

/-- `MemoryEntry` of the context manager. -/
structure MemoryEntry where
  id : Str
  type : MType
  content : Str
  source : Option Str
  importance : Nat
  turn : Nat
deriving DecidableEq

/-- `ContextManagerConfig`. -/
structure CMConfig where
  slidingWindowSize : Nat
  maxMemoryEntries : Nat
  maxSummaryLength : Nat
  maxResultLength : Nat
  aggressiveCompression : Bool

/-- The `DEFAULT_CONFIG` of the context manager. -/
def defaultCMConfig : CMConfig := ⟨3, 20, 200, 1500, false⟩

/-- The truncation marker appended by `compressResult`. -/
def truncMarker : Str := str "\n\n[... truncated for context efficiency ...]"

/-- The bullet characters recognized by `compressResult`. -/
def bulletStart (t : Str) : Bool :=
  (str "-").isPrefixOf t || (str "*").isPrefixOf t || [Char.ofNat 8226].isPrefixOf t

/-- `/^\d+\./`: one or more digits then a period. -/
def isNumberedLine (t : Str) : Bool :=
  let digits := t.takeWhile Char.isDigit
  !digits.isEmpty &&
    (match t.drop digits.length with
     | c :: _ => c = '.'
     | [] => false)

/-- Does the current section heading mention conclusion / summary / key? -/
def sectionKeyB (sec : Str) : Bool :=
  containsStr (lowerStr sec) (str "conclusion") ||
  containsStr (lowerStr sec) (str "summary") ||
  containsStr (lowerStr sec) (str "key")

/-- One iteration of the line loop of `compressResult`, carrying the
collected lines and the current section heading. -/
def compressStep (acc : List Str × Str) (line : Str) : List Str × Str :=
  let t := trimStr line
  if (str "#").isPrefixOf t || (str "##").isPrefixOf t then (acc.1 ++ [line], t)
  else if bulletStart t && acc.1.length < 30 then (acc.1 ++ [line], acc.2)
  else if isNumberedLine t && acc.1.length < 30 then (acc.1 ++ [line], acc.2)
  else if sectionKeyB acc.2 && !t.isEmpty && acc.1.length < 40 then
    (acc.1 ++ [line], acc.2)
  else acc

/-- `ContextManager.compressResult`: inputs within the budget are returned
unchanged; otherwise headers, bounded bullet/numbered lines and
conclusion-section lines are kept, and the joined extraction is truncated
to `maxResultLength - 50` characters plus the marker when still over the
budget. -/
def compressResult (cfg : CMConfig) (result : Str) : Str :=
  if result.length ≤ cfg.maxResultLength then result
  else
    let compressed := joinNL ((splitLines result).foldl compressStep ([], [])).1
    if compressed.length > cfg.maxResultLength then
      compressed.take (cfg.maxResultLength - 50) ++ truncMarker
    else compressed

/-- C9: for configurations with `maxResultLength ≥ 50`, `compressResult`
never exceeds the budget; within-budget inputs are returned unchanged, and
when the extraction is still over budget it is truncated to
`maxResultLength - 50` characters before the 44-character marker is
appended, so the output has exactly `maxResultLength - 6` characters. -/
theorem compressResult_bounded (cfg : CMConfig) (s : Str)
    (h50 : 50 ≤ cfg.maxResultLength) :
    (compressResult cfg s).length ≤ cfg.maxResultLength ∧
    (s.length ≤ cfg.maxResultLength → compressResult cfg s = s) ∧
    (cfg.maxResultLength < s.length →
      cfg.maxResultLength <
        (joinNL ((splitLines s).foldl compressStep ([], [])).1).length →
      compressResult cfg s =
        (joinNL ((splitLines s).foldl compressStep ([], [])).1).take
          (cfg.maxResultLength - 50) ++ truncMarker ∧
      (compressResult cfg s).length = cfg.maxResultLength - 6) := by
  have hmark : truncMarker.length = 44 := by decide
  refine ⟨?_, ?_, ?_⟩
  · unfold compressResult
    by_cases hle : s.length ≤ cfg.maxResultLength
    · rw [if_pos hle]; exact hle
    · rw [if_neg hle]
      dsimp only
      by_cases hc : (joinNL ((splitLines s).foldl compressStep ([], [])).1).length >
          cfg.maxResultLength
      · rw [if_pos hc]
        rw [List.length_append, List.length_take, hmark]
        have : min (cfg.maxResultLength - 50)
            (joinNL ((splitLines s).foldl compressStep ([], [])).1).length ≤
            cfg.maxResultLength - 50 := Nat.min_le_left _ _
        omega
      · rw [if_neg hc]
        omega
  · intro hle
    unfold compressResult
    rw [if_pos hle]
  · intro hgt hc
    unfold compressResult
    rw [if_neg (by omega)]
    dsimp only
    rw [if_pos (by omega)]
    refine ⟨rfl, ?_⟩
    rw [List.length_append, List.length_take, hmark]
    have hminv : min (cfg.maxResultLength - 50)
        (joinNL ((splitLines s).foldl compressStep ([], [])).1).length =
        cfg.maxResultLength - 50 := by
      apply Nat.min_eq_left
      omega
    omega

/-- A configuration with a 100-character result budget. -/
def c9Cfg : CMConfig := ⟨3, 20, 200, 100, false⟩

/-- An over-budget input for the C9 witness: 120 dash characters (a bullet
line, hence kept by the extraction, which therefore stays over budget). -/
def c9Long : Str := List.replicate 120 '-'

/-- Witness for C9: the truncated output of the over-budget input has
exactly `maxResultLength - 6` characters, within the budget. -/
theorem compressResult_bounded_witness :
    (compressResult c9Cfg c9Long).length ≤ c9Cfg.maxResultLength ∧
    (compressResult c9Cfg c9Long).length = c9Cfg.maxResultLength - 6 :=
  ⟨(compressResult_bounded c9Cfg c9Long (by decide)).1,
   ((compressResult_bounded c9Cfg c9Long (by decide)).2.2 (by decide) (by decide)).2⟩

/-- The duplicate test of `addToMemory`: same content, or same source and
same type (JavaScript `===` on the optional source field makes two absent
sources equal). -/
def isDuplicateEntry (bank : List MemoryEntry) (f : MemoryEntry) : Bool :=
  bank.any fun m => m.content = f.content || (m.source = f.source && m.type = f.type)

/-- The insertion loop body of `addToMemory`: push unless duplicate. -/
def insertFinding (bank : List MemoryEntry) (f : MemoryEntry) : List MemoryEntry :=
  if isDuplicateEntry bank f then bank else bank ++ [f]

/-- The comparator `(a, b) => b.importance - a.importance` as a stable
descending order (ECMAScript `Array.prototype.sort` is stable). -/
def byImportanceDesc (a b : MemoryEntry) : Bool := b.importance ≤ a.importance

/-- `ContextManager.addToMemory`: insert the non-duplicate findings, then
prune by descending importance to `maxMemoryEntries` when over the cap. -/
def addToMemory (cfg : CMConfig) (bank : List MemoryEntry)
    (findings : List MemoryEntry) : List MemoryEntry :=
  let bank1 := findings.foldl insertFinding bank
  if bank1.length > cfg.maxMemoryEntries then
    (bank1.mergeSort byImportanceDesc).take cfg.maxMemoryEntries
  else bank1

theorem addToMemory_le (cfg : CMConfig) (bank findings : List MemoryEntry) :
    (addToMemory cfg bank findings).length ≤ cfg.maxMemoryEntries := by
  unfold addToMemory
  by_cases h : (findings.foldl insertFinding bank).length > cfg.maxMemoryEntries
  · rw [if_pos h, List.length_take]
    exact Nat.min_le_left _ _
  · rw [if_neg h]
    omega

theorem addToMemory_foldl_le (cfg : CMConfig) :
    ∀ (fss : List (List MemoryEntry)) (bank : List MemoryEntry),
      bank.length ≤ cfg.maxMemoryEntries →
      (fss.foldl (addToMemory cfg) bank).length ≤ cfg.maxMemoryEntries := by
  intro fss
  induction fss with
  | nil => intro bank h; exact h
  | cons fs rest ih =>
    intro bank _
    exact ih (addToMemory cfg bank fs) (addToMemory_le cfg bank fs)

theorem byImportanceDesc_trans (a b c : MemoryEntry) :
    byImportanceDesc a b = true → byImportanceDesc b c = true →
    byImportanceDesc a c = true := by
  unfold byImportanceDesc
  intro h1 h2
  simp only [decide_eq_true_eq] at *
  omega

theorem byImportanceDesc_total (a b : MemoryEntry) :
    (byImportanceDesc a b || byImportanceDesc b a) = true := by
  unfold byImportanceDesc
  rcases Nat.le_total a.importance b.importance with h | h <;> simp [h]

theorem addToMemory_prune (cfg : CMConfig) (bank findings : List MemoryEntry)
    (h : cfg.maxMemoryEntries < (findings.foldl insertFinding bank).length) :
    addToMemory cfg bank findings =
      ((findings.foldl insertFinding bank).mergeSort byImportanceDesc).take
        cfg.maxMemoryEntries ∧
    ∀ a ∈ addToMemory cfg bank findings,
      ∀ b ∈ ((findings.foldl insertFinding bank).mergeSort byImportanceDesc).drop
        cfg.maxMemoryEntries, b.importance ≤ a.importance := by
  have heq : addToMemory cfg bank findings =
      ((findings.foldl insertFinding bank).mergeSort byImportanceDesc).take
        cfg.maxMemoryEntries := by
    unfold addToMemory
    rw [if_pos h]
  refine ⟨heq, ?_⟩
  intro a ha b hb
  rw [heq] at ha
  have hsorted := List.sorted_mergeSort byImportanceDesc_trans byImportanceDesc_total
    (findings.foldl insertFinding bank)
  rw [← List.take_append_drop cfg.maxMemoryEntries
    ((findings.foldl insertFinding bank).mergeSort byImportanceDesc)] at hsorted
  have hcross := (List.pairwise_append.mp hsorted).2.2 a ha b hb
  simpa [byImportanceDesc] using hcross

/-- C7: the memory bank respects its capacity and prunes by importance.
First conjunct: one `addToMemory` call always leaves at most
`maxMemoryEntries` entries.  Second: after any sequence of `addToMemory`
calls starting from the empty bank, the bank holds at most
`maxMemoryEntries` entries.  Third: when the insertions push the bank over
the cap, the result is exactly the first `maxMemoryEntries` entries of the
importance-descending stable sort, and every retained entry's importance is
at least every discarded entry's importance. -/
theorem memory_bank_capacity :
    (∀ (cfg : CMConfig) (bank findings : List MemoryEntry),
      (addToMemory cfg bank findings).length ≤ cfg.maxMemoryEntries) ∧
    (∀ (cfg : CMConfig) (fss : List (List MemoryEntry)),
      (fss.foldl (addToMemory cfg) []).length ≤ cfg.maxMemoryEntries) ∧
    (∀ (cfg : CMConfig) (bank findings : List MemoryEntry),
      cfg.maxMemoryEntries < (findings.foldl insertFinding bank).length →
      addToMemory cfg bank findings =
        ((findings.foldl insertFinding bank).mergeSort byImportanceDesc).take
          cfg.maxMemoryEntries ∧
      ∀ a ∈ addToMemory cfg bank findings,
        ∀ b ∈ ((findings.foldl insertFinding bank).mergeSort byImportanceDesc).drop
          cfg.maxMemoryEntries, b.importance ≤ a.importance) :=
  ⟨addToMemory_le,
   fun cfg fss => addToMemory_foldl_le cfg fss [] (Nat.zero_le _),
   addToMemory_prune⟩

/-- A capacity-2 configuration for the C7 witness. -/
def c7Cfg : CMConfig := ⟨3, 2, 200, 1500, false⟩

/-- Three distinct findings of importances 5, 9 and 1. -/
def c7Findings : List MemoryEntry :=
  [⟨str "finding-1-0", MType.issue, str "error in parser", some (str "a.ts"), 5, 1⟩,
   ⟨str "finding-1-1", MType.issue, str "critical security flaw", some (str "b.ts"), 9, 1⟩,
   ⟨str "finding-1-2", MType.summary, str "note on layout", some (str "c.ts"), 1, 1⟩]

/-- Witness for C7: inserting three findings into a capacity-2 bank keeps
exactly the two entries of highest importance, in descending order. -/
theorem memory_bank_capacity_witness :
    addToMemory c7Cfg [] c7Findings =
      [⟨str "finding-1-1", MType.issue, str "critical security flaw", some (str "b.ts"), 9, 1⟩,
       ⟨str "finding-1-0", MType.issue, str "error in parser", some (str "a.ts"), 5, 1⟩] :=
  ((memory_bank_capacity.2.2 c7Cfg [] c7Findings (by decide)).1).trans
    (by simp +decide [List.mergeSort, insertFinding, isDuplicateEntry, c7Findings,
      c7Cfg, byImportanceDesc, str])

/-- The finding-indicative keywords of `extractFindings`. -/
def findingKeywords : List Str :=
  [str "found", str "detected", str "identified", str "pattern", str "issue",
   str "warning", str "error", str "dependency", str "architecture"]

/-- `/^(#|##)\s/`: a heading line. -/
def headingLine (t : Str) : Bool :=
  match t with
  | '#' :: c :: rest =>
    jsSpace c ||
      (c = '#' && (match rest with | c2 :: _ => jsSpace c2 | [] => false))
  | _ => false

/-- The importance test of `extractFindings`. -/
def isImportantLine (t : Str) : Bool :=
  findingKeywords.any (containsStr t) || headingLine t

/-- `ContextManager.categorizeFinding`. -/
def categorizeFinding (content : Str) : MType :=
  let lower := lowerStr content
  if containsStr lower (str "file") || containsStr lower (str "module") ||
      containsStr lower (str "component") then MType.file_analysis
  else if containsStr lower (str "pattern") || containsStr lower (str "architecture") ||
      containsStr lower (str "design") then MType.pattern
  else if containsStr lower (str "dependency") || containsStr lower (str "import") ||
      containsStr lower (str "require") then MType.dependency
  else if containsStr lower (str "issue") || containsStr lower (str "error") ||
      containsStr lower (str "warning") || containsStr lower (str "vulnerability") ||
      containsStr lower (str "bug") then MType.issue
  else MType.summary

/-- `ContextManager.scoreFinding`: base 5 with keyword boosts, clamped to
`[1, 10]`. -/
def scoreFinding (content : Str) : Nat :=
  let lower := lowerStr content
  let s1 := 5 + (if containsStr lower (str "critical") || containsStr lower (str "security") ||
    containsStr lower (str "vulnerability") then 3 else 0)
  let s2 := s1 + (if containsStr lower (str "error") || containsStr lower (str "bug") ||
    containsStr lower (str "issue") then 2 else 0)
  let s3 := s2 + (if containsStr lower (str "main") || containsStr lower (str "entry") ||
    containsStr lower (str "core") then 1 else 0)
  let s4 := s3 - (if containsStr lower (str "todo") || containsStr lower (str "note")
    then 1 else 0)
  min 10 (max 1 s4)

/-- One line of the `extractFindings` loop. -/
def extractStep (turn : Nat) (source : Option Str) (acc : List MemoryEntry)
    (line : Str) : List MemoryEntry :=
  let t := trimStr line
  if t.isEmpty then acc
  else if isImportantLine t && decide (10 < t.length) && decide (t.length < 500) then
    acc ++ [⟨str "finding-" ++ natStr turn ++ str "-" ++ natStr acc.length,
      categorizeFinding t, t.take 300, source, scoreFinding t, turn⟩]
  else acc

/-- `ContextManager.extractFindings`, capped at 5 findings per call;
`registerTurn` calls it without a source argument (`undefined`, modelled as
`none`). -/
def extractFindings (result : Str) (turn : Nat) (source : Option Str) :
    List MemoryEntry :=
  ((splitLines result).foldl (extractStep turn source) []).take 5

/-- No two entries of the list both lack a source and share a type. -/
def SourcelessOk (bank : List MemoryEntry) : Prop :=
  List.Pairwise
    (fun a b => ¬(a.source = none ∧ b.source = none ∧ a.type = b.type)) bank

theorem insertFinding_skips {bank : List MemoryEntry} {f m : MemoryEntry}
    (hm : m ∈ bank) (hsrc : m.source = f.source) (hty : m.type = f.type) :
    insertFinding bank f = bank := by
  unfold insertFinding
  rw [if_pos]
  unfold isDuplicateEntry
  rw [List.any_eq_true]
  exact ⟨m, hm, by simp [hsrc, hty]⟩

theorem insertFinding_sourceless {bank : List MemoryEntry} {f : MemoryEntry}
    (h : SourcelessOk bank) : SourcelessOk (insertFinding bank f) := by
  unfold insertFinding
  by_cases hdup : isDuplicateEntry bank f = true
  · rw [if_pos hdup]; exact h
  · rw [if_neg hdup]
    rw [SourcelessOk, List.pairwise_append]
    refine ⟨h, List.pairwise_singleton _ _, ?_⟩
    intro m hm b hb
    rw [List.mem_singleton] at hb
    subst hb
    rintro ⟨hms, hfs, hmt⟩
    apply hdup
    unfold isDuplicateEntry
    rw [List.any_eq_true]
    refine ⟨m, hm, ?_⟩
    have : m.source = b.source := by rw [hms, hfs]
    simp [this, hmt]

theorem foldl_insert_sourceless :
    ∀ (fs : List MemoryEntry) (bank : List MemoryEntry), SourcelessOk bank →
      SourcelessOk (fs.foldl insertFinding bank) := by
  intro fs
  induction fs with
  | nil => intro bank h; exact h
  | cons f rest ih =>
    intro bank h
    exact ih _ (insertFinding_sourceless h)

theorem sourcelessRel_symm {a b : MemoryEntry}
    (h : ¬(a.source = none ∧ b.source = none ∧ a.type = b.type)) :
    ¬(b.source = none ∧ a.source = none ∧ b.type = a.type) := by
  rintro ⟨h1, h2, h3⟩
  exact h ⟨h2, h1, h3.symm⟩

theorem addToMemory_sourceless (cfg : CMConfig) (bank fs : List MemoryEntry)
    (h : SourcelessOk bank) : SourcelessOk (addToMemory cfg bank fs) := by
  have h1 := foldl_insert_sourceless fs bank h
  unfold addToMemory
  by_cases hlen : (fs.foldl insertFinding bank).length > cfg.maxMemoryEntries
  · rw [if_pos hlen]
    have hperm := List.mergeSort_perm (fs.foldl insertFinding bank) byImportanceDesc
    have h2 : SourcelessOk ((fs.foldl insertFinding bank).mergeSort byImportanceDesc) :=
      (List.Perm.pairwise_iff (fun hxy => sourcelessRel_symm hxy) hperm).mpr h1
    exact List.Pairwise.sublist (List.take_sublist _ _) h2
  · rw [if_neg hlen]
    exact h1

theorem addToMemory_foldl_sourceless (cfg : CMConfig) :
    ∀ (fss : List (List MemoryEntry)) (bank : List MemoryEntry),
      SourcelessOk bank → SourcelessOk (fss.foldl (addToMemory cfg) bank) := by
  intro fss
  induction fss with
  | nil => intro bank h; exact h
  | cons fs rest ih =>
    intro bank h
    exact ih _ (addToMemory_sourceless cfg bank fs h)

theorem extractFindings_source (result : Str) (turn : Nat) (source : Option Str) :
    ∀ e ∈ extractFindings result turn source, e.source = source := by
  have hfold : ∀ (lines : List Str) (acc : List MemoryEntry),
      (∀ e ∈ acc, e.source = source) →
      ∀ e ∈ lines.foldl (extractStep turn source) acc, e.source = source := by
    intro lines
    induction lines with
    | nil => intro acc h; exact h
    | cons l rest ih =>
      intro acc hacc
      apply ih
      intro e he
      simp only [extractStep] at he
      split at he
      · exact hacc e he
      · split at he
        · rw [List.mem_append] at he
          rcases he with he | he
          · exact hacc e he
          · rw [List.mem_singleton] at he
            subst he
            rfl
        · exact hacc e he
  intro e he
  exact hfold (splitLines result) [] (by simp) e (List.take_subset 5 _ he)

/-- C10: the sourceless-duplicate behaviour of `addToMemory`.  First
conjunct: an incoming finding without a source is discarded whenever the
bank already holds an entry without a source of the same type, regardless
of content (JavaScript `undefined === undefined`).  Second and third: every
bank reachable by `addToMemory` calls (from a bank, or from the empty bank)
never holds two sourceless entries of the same type.  Fourth: the findings
`registerTurn` stores all lack a source, since `extractFindings` is called
there without a source argument. -/
theorem sourceless_dedup :
    (∀ (bank : List MemoryEntry) (f m : MemoryEntry), m ∈ bank →
      m.source = none → f.source = none → m.type = f.type →
      insertFinding bank f = bank) ∧
    (∀ (cfg : CMConfig) (bank fs : List MemoryEntry), SourcelessOk bank →
      SourcelessOk (addToMemory cfg bank fs)) ∧
    (∀ (cfg : CMConfig) (fss : List (List MemoryEntry)),
      SourcelessOk (fss.foldl (addToMemory cfg) [])) ∧
    (∀ (result : Str) (turn : Nat), ∀ e ∈ extractFindings result turn none,
      e.source = none) :=
  ⟨fun _ _ m hm hms hfs hty =>
      insertFinding_skips hm (by rw [hms, hfs]) hty,
   addToMemory_sourceless,
   fun cfg fss => addToMemory_foldl_sourceless cfg fss [] (List.Pairwise.nil),
   fun result turn => extractFindings_source result turn none⟩

/-- A bank holding one sourceless issue entry. -/
def c10Old : MemoryEntry :=
  ⟨str "finding-1-0", MType.issue, str "error in auth flow", none, 7, 1⟩

/-- The bank of the C10 witness. -/
def c10Bank : List MemoryEntry := [c10Old]

/-- A sourceless issue finding with entirely different content. -/
def c10New : MemoryEntry :=
  ⟨str "finding-2-0", MType.issue, str "unrelated warning about imports", none, 9, 2⟩

/-- Witness for C10: the later sourceless finding of the same type is
discarded although its content differs. -/
theorem sourceless_dedup_witness : insertFinding c10Bank c10New = c10Bank :=
  sourceless_dedup.1 c10Bank c10New c10Old (by decide) (by decide) (by decide)
    (by decide)

/-!
## Adaptive compressor (`AdaptiveCompressor`, advanced-features module)

`updateUsage` stores the latest estimate; level selection and the result
budget are pure functions of the stored usage, modelled with the state as
an explicit argument.  The percentage comparison `usage / maxTokens * 100 ≥
threshold` and the scale factors `×0.3 / ×0.5 / ×0.75` are modelled as
exact rationals (`usage * 100 ≥ threshold * maxTokens`, `3 * base / 10`,
`base / 2`, `3 * base / 4`); the floating-point rounding of the source
cannot cross the strict inequalities involved for the integral inputs the
engine produces.
-/

/-- The four compression levels, in threshold order. -/
inductive CLevel
  | none
  | normal
  | aggressive
  | emergency
deriving DecidableEq

/-- Position of a level in the threshold ordering. -/
def levelIdx : CLevel → Nat
  | CLevel.none => 0
  | CLevel.normal => 1
  | CLevel.aggressive => 2
  | CLevel.emergency => 3

/-- `AdaptiveCompressionConfig`. -/
structure ACConfig where
  targetUsagePercent : Nat
  aggressiveThreshold : Nat
  emergencyThreshold : Nat
  minResultLength : Nat

/-- The `DEFAULT_ADAPTIVE_CONFIG` (70 / 80 / 90, floor 500). -/
def defaultACConfig : ACConfig := ⟨70, 80, 90, 500⟩

/-- `AdaptiveCompressor.getCompressionLevel` for a stored usage. -/
def getCompressionLevel (cfg : ACConfig) (maxTokens usage : Nat) : CLevel :=
  if usage * 100 ≥ cfg.emergencyThreshold * maxTokens then CLevel.emergency
  else if usage * 100 ≥ cfg.aggressiveThreshold * maxTokens then CLevel.aggressive
  else if usage * 100 ≥ cfg.targetUsagePercent * maxTokens then CLevel.normal
  else CLevel.none

/-- `AdaptiveCompressor.getMaxResultLength` as a function of the level. -/
def getMaxResultLengthAt (cfg : ACConfig) (lvl : CLevel) (base : Nat) : Nat :=
  match lvl with
  | CLevel.emergency => max cfg.minResultLength (3 * base / 10)
  | CLevel.aggressive => max cfg.minResultLength (base / 2)
  | CLevel.normal => max cfg.minResultLength (3 * base / 4)
  | CLevel.none => base

/-- `AdaptiveCompressor.getMaxResultLength` for a stored usage. -/
def getMaxResultLength (cfg : ACConfig) (maxTokens usage base : Nat) : Nat :=
  getMaxResultLengthAt cfg (getCompressionLevel cfg maxTokens usage) base

/-- Counterexample to C8 as stated: with the default configuration
(floor 500) and base length 100, usage 0 selects level `none` (value 100)
and usage 70000 of 100000 selects the strictly higher level `normal`
(value 500): the value under the higher level exceeds the value under the
lower level, so `getMaxResultLength` is not antitone in the level for base
lengths below the floor. -/
theorem getMaxResultLength_not_antitone :
    getCompressionLevel defaultACConfig 100000 0 = CLevel.none ∧
    getCompressionLevel defaultACConfig 100000 70000 = CLevel.normal ∧
    levelIdx CLevel.none < levelIdx CLevel.normal ∧
    getMaxResultLength defaultACConfig 100000 0 100 = 100 ∧
    getMaxResultLength defaultACConfig 100000 70000 100 = 500 ∧
    ¬(getMaxResultLength defaultACConfig 100000 70000 100 ≤
        getMaxResultLength defaultACConfig 100000 0 100) := by
  decide

/-- C8 (amended): for base lengths at or above the configured
`minResultLength` floor, `getMaxResultLength` is antitone in the level
ordering; and at the three compressing levels the value never falls below
the floor, for every base length. -/
theorem getMaxResultLength_monotone (cfg : ACConfig) (base : Nat) :
    (∀ l1 l2 : CLevel, levelIdx l1 ≤ levelIdx l2 →
      cfg.minResultLength ≤ base →
      getMaxResultLengthAt cfg l2 base ≤ getMaxResultLengthAt cfg l1 base) ∧
    (∀ l : CLevel, l ≠ CLevel.none →
      cfg.minResultLength ≤ getMaxResultLengthAt cfg l base) := by
  constructor
  · intro l1 l2 hle hbase
    cases l1 <;> cases l2 <;>
      simp only [getMaxResultLengthAt, levelIdx] at hle ⊢ <;> omega
  · intro l hne
    cases l with
    | none => exact absurd rfl hne
    | normal => exact Nat.le_max_left _ _
    | aggressive => exact Nat.le_max_left _ _
    | emergency => exact Nat.le_max_left _ _

/-- Witness for the amended C8: with the default configuration and base
2000 (above the floor), the emergency value stays below the `none` value
and above the floor. -/
theorem getMaxResultLength_monotone_witness :
    getMaxResultLengthAt defaultACConfig CLevel.emergency 2000 ≤
      getMaxResultLengthAt defaultACConfig CLevel.none 2000 ∧
    defaultACConfig.minResultLength ≤
      getMaxResultLengthAt defaultACConfig CLevel.emergency 2000 :=
  ⟨(getMaxResultLength_monotone defaultACConfig 2000).1 CLevel.none
      CLevel.emergency (by decide) (by decide),
   (getMaxResultLength_monotone defaultACConfig 2000).2 CLevel.emergency
      (by decide)⟩

/-!
## Context-rot detector (`ContextRotDetector`, advanced-features module)

Each source pattern is a case-insensitive regex built from literal words,
alternations and one optional group; such a regex tests positively exactly
when one of the finitely many alternative expansions occurs as a substring
of the lowercased response.  `RPattern` stores the regex source text (used
in the indicator strings) with that expansion.
-/

/-- A rot/retention pattern: regex source text and the finite list of its
lowercase expansions. -/
structure RPattern where
  source : Str
  alts : List Str

/-- `pattern.test(response)` for a case-insensitive alternation pattern. -/
def rpMatches (p : RPattern) (response : Str) : Bool :=
  p.alts.any fun a => containsStr (lowerStr response) a

/-- Expansions of `as (i |we )?(mentioned|discussed|noted)
(earlier|before|previously)`. -/
def rotAlts1 : List Str :=
  [str "", str "i ", str "we "].foldr (fun a acc =>
    ([str "mentioned", str "discussed", str "noted"].foldr (fun b acc2 =>
      ([str "earlier", str "before", str "previously"].map (fun c =>
        str "as " ++ a ++ b ++ str " " ++ c)) ++ acc2) []) ++ acc) []

/-- `CONTEXT_ROT_PATTERNS`, in source order. -/
def CONTEXT_ROT_PATTERNS : List RPattern :=
  [ ⟨str "as (i |we )?(mentioned|discussed|noted) (earlier|before|previously)", rotAlts1⟩,
    ⟨str "i(\x27m| am) not sure what",
      [str "i\x27m not sure what", str "i am not sure what"]⟩,
    ⟨str "what (was|were) (we|you) (looking|asking)",
      [str "what was we looking", str "what was we asking",
       str "what was you looking", str "what was you asking",
       str "what were we looking", str "what were we asking",
       str "what were you looking", str "what were you asking"]⟩,
    ⟨str "can you remind me", [str "can you remind me"]⟩,
    ⟨str "i don\x27t (have|see) (context|information) about",
      [str "i don\x27t have context about", str "i don\x27t have information about",
       str "i don\x27t see context about", str "i don\x27t see information about"]⟩,
    ⟨str "let me start (over|again|fresh)",
      [str "let me start over", str "let me start again", str "let me start fresh"]⟩,
    ⟨str "i(\x27ve| have) lost track",
      [str "i\x27ve lost track", str "i have lost track"]⟩,
    ⟨str "refresh my (memory|understanding)",
      [str "refresh my memory", str "refresh my understanding"]⟩,
    ⟨str "what (file|code|function) (are|were) we",
      [str "what file are we", str "what file were we",
       str "what code are we", str "what code were we",
       str "what function are we", str "what function were we"]⟩ ]

/-- `CONTEXT_RETENTION_PATTERNS`, in source order. -/
def CONTEXT_RETENTION_PATTERNS : List RPattern :=
  [ ⟨str "based on (the|my) (previous|earlier) analysis",
      [str "based on the previous analysis", str "based on the earlier analysis",
       str "based on my previous analysis", str "based on my earlier analysis"]⟩,
    ⟨str "as (we|i) (found|discovered|identified)",
      [str "as we found", str "as we discovered", str "as we identified",
       str "as i found", str "as i discovered", str "as i identified"]⟩,
    ⟨str "continuing (from|with) (the|our)",
      [str "continuing from the", str "continuing from our",
       str "continuing with the", str "continuing with our"]⟩,
    ⟨str "building on (the|our) (findings|analysis)",
      [str "building on the findings", str "building on the analysis",
       str "building on our findings", str "building on our analysis"]⟩ ]

/-- Mutable fields of `ContextRotDetector` (`maxHistory` is the constant 5). -/
structure RotState where
  recentResponses : List Str
  memoryReferenceCount : Nat
  rotIndicatorCount : Nat
deriving DecidableEq

/-- Constructor state of the detector. -/
def initRotState : RotState := ⟨[], 0, 0⟩

/-- The four recommended actions. -/
inductive RotRec
  | none
  | inject_memory
  | summarize
  | restart
deriving DecidableEq

/-- `ContextRotIndicators`. -/
structure RotIndicators where
  detected : Bool
  confidence : Nat
  indicators : List Str
  recommendation : RotRec
deriving DecidableEq

/-- Question marks in a response. -/
def countQuestions (s : Str) : Nat := s.countP (fun c => c = '?')

/-- `ContextRotDetector.analyzeResponse` as a state transformer.  The
average-question comparison `sum / length > 3` is modelled exactly as
`3 * length < sum`. -/
def analyzeResponse (st : RotState) (r : Str) : RotIndicators × RotState :=
  let recent0 := st.recentResponses ++ [r]
  let recent := if recent0.length > 5 then recent0.drop 1 else recent0
  let rotMatched := CONTEXT_ROT_PATTERNS.filter (fun p => rpMatches p r)
  let retMatched := CONTEXT_RETENTION_PATTERNS.filter (fun p => rpMatches p r)
  let inds1 := rotMatched.map fun p => str "Rot pattern: " ++ p.source.take 30 ++ str "..."
  let qflag := decide (recent.length ≥ 3) &&
    decide (3 * recent.length < (recent.map countQuestions).sum)
  let nflag := !containsStr r (str "file_index") && !containsStr r (str "llm_query") &&
    decide (500 < r.length) && !containsStr r (str "FINAL")
  let rotScore := 20 * rotMatched.length + (if qflag then 15 else 0) +
    (if nflag then 10 else 0)
  let retentionScore := 15 * retMatched.length
  let inds := inds1 ++
    (if qflag then [str "High question frequency (possible confusion)"] else []) ++
    (if nflag then [str "No code/file references in substantial response"] else [])
  let confidence := min 100 (rotScore - retentionScore)
  let recom :=
    if confidence ≥ 60 then RotRec.restart
    else if confidence ≥ 40 then RotRec.summarize
    else if confidence ≥ 20 then RotRec.inject_memory
    else RotRec.none
  (⟨decide (confidence ≥ 20), confidence, inds, recom⟩,
   ⟨recent, st.memoryReferenceCount + retMatched.length,
     st.rotIndicatorCount + rotMatched.length⟩)

/-- The concrete response of the C6 scenario. -/
def c6Resp : Str := str "Can you remind me?"

/-- First analysis of the scenario. -/
def c6Run1 : RotIndicators × RotState := analyzeResponse initRotState c6Resp

/-- Second analysis of the scenario. -/
def c6Run2 : RotIndicators × RotState := analyzeResponse c6Run1.2 c6Resp

/-- Third analysis of the scenario. -/
def c6Run3 : RotIndicators × RotState := analyzeResponse c6Run2.2 c6Resp

/-- Counterexample to C6 as stated: three consecutive responses containing
"can you remind me" keep confidence at 20 on every call — the rot score is
recomputed per response and does not accumulate across the rolling window —
so the recommendation stays `inject_memory` and never escalates to
`summarize` or `restart`. -/
theorem rot_no_escalation_counterexample :
    c6Run1.1.confidence = 20 ∧ c6Run2.1.confidence = 20 ∧
    c6Run3.1.confidence = 20 ∧
    c6Run1.1.recommendation = RotRec.inject_memory ∧
    c6Run2.1.recommendation = RotRec.inject_memory ∧
    c6Run3.1.recommendation = RotRec.inject_memory ∧
    c6Run3.1.recommendation ≠ RotRec.summarize ∧
    c6Run3.1.recommendation ≠ RotRec.restart := by
  decide

theorem analyzeResponse_eval (st : RotState) (r : Str)
    (hrot : (CONTEXT_ROT_PATTERNS.filter (fun p => rpMatches p r)).length = 1)
    (hret : (CONTEXT_RETENTION_PATTERNS.filter (fun p => rpMatches p r)).length = 0)
    (h5 : (st.recentResponses ++ [r]).length ≤ 5)
    (hqs : ((st.recentResponses ++ [r]).map countQuestions).sum ≤
      3 * (st.recentResponses ++ [r]).length)
    (hlen : r.length ≤ 500) :
    analyzeResponse st r =
      (⟨true, 20,
        (CONTEXT_ROT_PATTERNS.filter (fun p => rpMatches p r)).map
          (fun p => str "Rot pattern: " ++ p.source.take 30 ++ str "..."),
        RotRec.inject_memory⟩,
       ⟨st.recentResponses ++ [r], st.memoryReferenceCount,
        st.rotIndicatorCount + 1⟩) := by
  have hnoshift : ¬((st.recentResponses ++ [r]).length > 5) := by omega
  have hq : ¬(3 * (st.recentResponses ++ [r]).length <
      ((st.recentResponses ++ [r]).map countQuestions).sum) := by omega
  have hlenflag : ¬(500 < r.length) := by omega
  simp only [analyzeResponse, if_neg hnoshift, hrot, hret,
    decide_eq_false hq, decide_eq_false hlenflag, Bool.and_false,
    Bool.false_and, if_neg, Bool.and_eq_true]
  norm_num

/-- C6 (amended): three consecutive responses that each match exactly the
"can you remind me" rot pattern (and no retention pattern, with at most
three question marks and at most 500 characters) are each flagged with
confidence 20 and recommendation `inject_memory`: confidence is computed
per response and does not accumulate across the rolling window, so the
recommendation does not escalate toward `summarize` or `restart` under
repetition alone. -/
theorem rot_remind_inject_only (r : Str)
    (hrot : (CONTEXT_ROT_PATTERNS.filter (fun p => rpMatches p r)).length = 1)
    (hret : (CONTEXT_RETENTION_PATTERNS.filter (fun p => rpMatches p r)).length = 0)
    (hq3 : countQuestions r ≤ 3)
    (hlen : r.length ≤ 500) :
    (analyzeResponse initRotState r).1.confidence = 20 ∧
    (analyzeResponse initRotState r).1.recommendation = RotRec.inject_memory ∧
    (analyzeResponse (analyzeResponse initRotState r).2 r).1.confidence = 20 ∧
    (analyzeResponse (analyzeResponse initRotState r).2 r).1.recommendation =
      RotRec.inject_memory ∧
    (analyzeResponse (analyzeResponse (analyzeResponse initRotState r).2 r).2
        r).1.confidence = 20 ∧
    (analyzeResponse (analyzeResponse (analyzeResponse initRotState r).2 r).2
        r).1.recommendation = RotRec.inject_memory := by
  have h1 := analyzeResponse_eval initRotState r hrot hret
    (by simp [initRotState]) (by simp [initRotState]; omega) hlen
  have h2 := analyzeResponse_eval ⟨[r], 0, 1⟩ r hrot hret
    (by simp) (by simp; omega) hlen
  have h3 := analyzeResponse_eval ⟨[r, r], 0, 2⟩ r hrot hret
    (by simp) (by simp; omega) hlen
  rw [h1]
  simp only [initRotState]
  rw [show (⟨[] ++ [r], 0, 0 + 1⟩ : RotState) = ⟨[r], 0, 1⟩ by simp]
  rw [h2]
  rw [show (⟨[r] ++ [r], 0, 1 + 1⟩ : RotState) = ⟨[r, r], 0, 2⟩ by simp]
  rw [h3]
  simp

/-- Witness for the amended C6: the concrete scenario response. -/
theorem rot_remind_inject_only_witness :
    (analyzeResponse initRotState c6Resp).1.confidence = 20 ∧
    (analyzeResponse initRotState c6Resp).1.recommendation =
      RotRec.inject_memory ∧
    (analyzeResponse (analyzeResponse initRotState c6Resp).2 c6Resp).1.confidence = 20 ∧
    (analyzeResponse (analyzeResponse initRotState c6Resp).2 c6Resp).1.recommendation =
      RotRec.inject_memory ∧
    (analyzeResponse (analyzeResponse (analyzeResponse initRotState c6Resp).2 c6Resp).2
        c6Resp).1.confidence = 20 ∧
    (analyzeResponse (analyzeResponse (analyzeResponse initRotState c6Resp).2 c6Resp).2
        c6Resp).1.recommendation = RotRec.inject_memory :=
  rot_remind_inject_only c6Resp (by decide) (by decide) (by decide) (by decide)
